import Mathlib

/-!
Shallow embedding of `src/main.cpp`, the single-file Qt GitHub client
(Git-Manager).  Qt `QString` values are modelled as `List Char`; the Qt
string operations the code uses (`split`, `trimmed`, `section`, `mid`,
`contains`, `startsWith`) are modelled as the list functions below.
`QProcess` waiting follows the documented Qt semantics: a negative
`msecs` argument waits without a time limit, any non-negative `msecs`
waits at most `msecs` milliseconds (so `waitForFinished(0)` does not
wait at all).  `QChar::isSpace` is modelled by `Char.isWhitespace`,
which covers the ASCII whitespace git output can contain.
-/

/-- Coerce a Lean string literal to the `List Char` model of `QString`. -/
def str (s : String) : List Char := s.data

/-- `QString::split` on a one-character separator, keeping empty parts
(Qt's default `KeepEmptyParts` behaviour). -/
def splitList (c : Char) : List Char → List (List Char)
  | [] => [[]]
  | x :: xs =>
    let r := splitList c xs
    if x = c then [] :: r
    else (x :: r.headD []) :: r.tail

/-- `QString::split` with `QString::SkipEmptyParts`, as the code calls it. -/
def qsplitSkip (l : List Char) (c : Char) : List (List Char) :=
  (splitList c l).filter (fun p => !p.isEmpty)

/-- `QString::trimmed`: whitespace stripped from both ends. -/
def qtrimmed (l : List Char) : List Char :=
  ((l.dropWhile Char.isWhitespace).reverse.dropWhile Char.isWhitespace).reverse

/-- `QString::section(sep, 1)` for a one-character separator: everything
after the first occurrence of the separator (empty when there is none). -/
def afterFirstTab : List Char → List Char
  | [] => []
  | x :: xs => if x = '\t' then xs else afterFirstTab xs

/-- `QString::startsWith` on the list model. -/
def beginsWith : List Char → List Char → Bool
  | [], _ => true
  | _ :: _, [] => false
  | p :: ps, x :: xs => p = x && beginsWith ps xs

/-- Whether the character at index `i` satisfies `QChar::isSpace`
(the code only asks this at indices it has bounds-checked). -/
def isWsAt (l : List Char) (i : Nat) : Bool :=
  match l.get? i with
  | some c => c.isWhitespace
  | none => false

/-! ## Process Runner (`runCommand`, src/main.cpp lines 54-71)

The external process is abstracted by its observable behaviour: whether
it starts within the 10 s start timeout, how many milliseconds it needs
to finish on its own (`none` = it never finishes), its exit code and the
text it writes to its two streams. -/

structure ProcBehavior where
  startsWithin : Bool
  duration : Option Nat
  exitCode : Int
  outData : List Char
  errData : List Char
deriving DecidableEq

/-- The observable result of one `runCommand` call: the boolean the
function returns, the two captured streams, and whether the child was
killed by the timeout branch. -/
structure RunOutcome where
  exitSucceeded : Bool
  stdoutOut : List Char
  stderrOut : List Char
  killed : Bool
deriving DecidableEq

/-- Qt semantics of `proc.waitForFinished(msecs)`: succeeds when the
process finishes within the wait, where a negative `msecs` waits with no
time limit and a non-negative `msecs` waits `msecs` milliseconds. -/
def finishesWithin (p : ProcBehavior) (msecs : Int) : Bool :=
  if msecs < 0 then true
  else
    match p.duration with
    | none => false
    | some d => (d : Int) ≤ msecs

/-- `runCommand` (src/main.cpp lines 54-71): start the process, fail with
"Failed to start process" if it does not start, fail with
"Process timed out" and kill it if `waitForFinished(timeoutMs)` fails,
otherwise capture both streams and return `exitCode == 0`.  The `out`
and `err` reference parameters start out empty in every caller, so the
failure branches leave `stdoutOut` empty. -/
def runCommand (p : ProcBehavior) (timeoutMs : Int) : RunOutcome :=
  if !p.startsWithin then ⟨false, [], str "Failed to start process", false⟩
  else if !finishesWithin p timeoutMs then ⟨false, [], str "Process timed out", true⟩
  else ⟨p.exitCode == 0, p.outData, p.errData, false⟩

/-! ## Claim C1 and Claim C8: runCommand timeout behaviour -/

/-- Claim C1 (code_bug evidence): `onCloneSelected` passes `timeoutMs = 0`
with the comment "no timeout", but under Qt semantics
`waitForFinished(0)` waits 0 ms.  A started clone that would exit
successfully after just 1 ms is killed and reported as
"Process timed out", so a zero-timeout invocation does return a
timed-out failure, contrary to the claim. -/
theorem runCommand_zero_timeout_times_out :
    runCommand ⟨true, some 1, 0, str "done", []⟩ 0 =
      ⟨false, [], str "Process timed out", true⟩ := by
  decide

/-- Claim C8: for a positive timeout, a started process that does not
complete within the timeout yields `exitSucceeded = false`, the
"Process timed out" indicator in the captured error stream, and the
child process killed. -/
theorem runCommand_positive_timeout_spec (p : ProcBehavior) (t : Int)
    (hs : p.startsWithin = true) (ht : 0 < t)
    (hd : p.duration = none ∨ ∃ d, p.duration = some d ∧ t < (d : Int)) :
    runCommand p t = ⟨false, [], str "Process timed out", true⟩ := by
  have hfin : finishesWithin p t = false := by
    unfold finishesWithin
    have hneg : ¬ t < 0 := by omega
    rcases hd with h | ⟨d, hdd, hlt⟩
    · simp [hneg, h]
    · simp [hneg, hdd]
      omega
  unfold runCommand
  simp [hs, hfin]

/-- Concrete instance of `runCommand_positive_timeout_spec`: a process
needing 5000 ms against a 1000 ms timeout is killed and reported as
timed out. -/
theorem runCommand_positive_timeout_spec_witness :
    runCommand ⟨true, some 5000, 0, [], []⟩ 1000 =
      ⟨false, [], str "Process timed out", true⟩ :=
  runCommand_positive_timeout_spec ⟨true, some 5000, 0, [], []⟩ 1000 rfl
    (by decide) (Or.inr ⟨5000, rfl, by decide⟩)

/-! ## Status-Line Parser (`onRefreshLocal`, src/main.cpp lines 301-305)

The porcelain output is split into non-empty lines; an empty line list
yields the single "Working tree clean" sentinel row. -/

def refreshFileEntries (out : List Char) : List (List Char) :=
  let lines := qsplitSkip out '\n'
  if lines.isEmpty then [str "Working tree clean"] else lines

/-- Claim C5: with at least one non-empty porcelain line the parser
returns exactly those lines (one entry per non-empty line, and no
synthesized clean sentinel); with no non-empty line it returns exactly
the one clean sentinel entry. -/
theorem refreshFileEntries_spec (out : List Char) :
    (qsplitSkip out '\n' ≠ [] →
      refreshFileEntries out = qsplitSkip out '\n' ∧
      (refreshFileEntries out).length = (qsplitSkip out '\n').length ∧
      (str "Working tree clean" ∉ qsplitSkip out '\n' →
        str "Working tree clean" ∉ refreshFileEntries out)) ∧
    (qsplitSkip out '\n' = [] →
      refreshFileEntries out = [str "Working tree clean"]) := by
  unfold refreshFileEntries
  by_cases h : qsplitSkip out '\n' = [] <;>
    simp [h, List.isEmpty_iff]

/-- Concrete instances of `refreshFileEntries_spec`: two change lines
give two entries, empty output gives the sentinel row. -/
theorem refreshFileEntries_spec_witness :
    refreshFileEntries (str " M a.txt\n?? b.txt\n") =
      [str " M a.txt", str "?? b.txt"] ∧
    refreshFileEntries (str "") = [str "Working tree clean"] := by
  constructor
  · exact (((refreshFileEntries_spec (str " M a.txt\n?? b.txt\n")).1
      (by decide)).1).trans (by decide)
  · exact (refreshFileEntries_spec (str "")).2 (by decide)

/-! ## Diff path extraction (`onShowDiff`, src/main.cpp lines 404-421) -/

/-- Path extraction from a file-list entry, as `onShowDiff` performs it:
a tab means "take everything after the first tab"; an entry starting
with "---" is the separator row and yields no path; otherwise the
offset-3 slice is taken only when the entry is longer than 3 characters
and one of its first two characters is a space, else the whole entry is
trimmed; finally an empty result falls back to the trimmed whole entry. -/
def extractDiffPath (fileEntry : List Char) : Option (List Char) :=
  if fileEntry.contains '\t' then
    let p := afterFirstTab fileEntry
    some (if p.isEmpty then qtrimmed fileEntry else p)
  else if beginsWith (str "---") fileEntry then none
  else
    let p :=
      if decide (3 < fileEntry.length) && (isWsAt fileEntry 0 || isWsAt fileEntry 1) then
        qtrimmed (fileEntry.drop 3)
      else qtrimmed fileEntry
    some (if p.isEmpty then qtrimmed fileEntry else p)

/-- The empty-result fallback of the amended extraction rule: when the
candidate path is empty, the trimmed whole entry is used instead. -/
def orWholeLine (e p : List Char) : List Char :=
  if p = [] then qtrimmed e else p

/-- The amended path-extraction rule, stated from the amended claim: a
tab yields the substring after the first tab (or, when that is empty,
the trimmed whole line); otherwise a "---" separator row yields no path;
otherwise the offset-3 substring, trimmed, is the path only when the
entry has more than 3 characters and at least one of its first two
characters is whitespace (or the trimmed whole line when that substring
trims to empty); in every remaining case the path is the trimmed whole
line. -/
def amendedPathRule (e : List Char) : Option (List Char) :=
  if '\t' ∈ e then some (orWholeLine e (afterFirstTab e))
  else if beginsWith (str "---") e then none
  else if 3 < e.length ∧ (isWsAt e 0 = true ∨ isWsAt e 1 = true) then
    some (orWholeLine e (qtrimmed (e.drop 3)))
  else some (orWholeLine e (qtrimmed e))

/-- Claim C2 (counterexample): the claim's unconditional offset-3 rule
predicts path "a.txt" for the untracked-file entry "?? a.txt", but the
code extracts the whole trimmed entry "?? a.txt" because neither of the
first two characters is a space. -/
theorem extractDiffPath_claim_cex :
    extractDiffPath (str "?? a.txt") = some (str "?? a.txt") ∧
    extractDiffPath (str "?? a.txt") ≠ some (str "a.txt") := by
  decide

/-- Claim C2 (amended): both examples of the claim hold, and path
extraction agrees with the amended rule on every entry. -/
theorem extractDiffPath_amended :
    extractDiffPath (str " M path/to/file.txt") = some (str "path/to/file.txt") ∧
    extractDiffPath (str "R  old.txt\tnew.txt") = some (str "new.txt") ∧
    ∀ e, extractDiffPath e = amendedPathRule e := by
  refine ⟨by decide, by decide, fun e => ?_⟩
  unfold extractDiffPath amendedPathRule orWholeLine
  by_cases ht : '\t' ∈ e
  · simp [ht, List.elem_iff, List.isEmpty_iff, List.contains]
  · simp [ht, List.elem_iff, List.isEmpty_iff, List.contains]
    split_ifs <;> simp_all

/-! ## Remote-Divergence Parser (`onCheckUpdates`, src/main.cpp lines 349-362)

`rev-list --left-right --count` output is split on tabs (skipping empty
parts); only when that yields no parts at all is it re-split on spaces.
With at least two parts the first two, trimmed, are the behind/ahead
counts; otherwise the caller logs the raw output ("rev-list output
unexpected"), which the `none` result models. -/

def parseDivergence (cntOut : List Char) : Option (List Char × List Char) :=
  let parts := qsplitSkip cntOut '\t'
  let parts2 := if parts.isEmpty then qsplitSkip cntOut ' ' else parts
  if 2 ≤ parts2.length then
    some (qtrimmed (parts2.getD 0 []), qtrimmed (parts2.getD 1 []))
  else none

/-! Helper lemmas about the split and trim models. -/

theorem splitList_cons (c x : Char) (xs : List Char) :
    splitList c (x :: xs) =
      if x = c then [] :: splitList c xs
      else (x :: (splitList c xs).headD []) :: (splitList c xs).tail := rfl

theorem splitList_no_sep (c : Char) (l : List Char) (h : ∀ x ∈ l, x ≠ c) :
    splitList c l = [l] := by
  induction l with
  | nil => rfl
  | cons x xs ih =>
    have hx : x ≠ c := h x (by simp)
    have ihh := ih (fun y hy => h y (by simp [hy]))
    rw [splitList_cons, if_neg hx, ihh]
    rfl

theorem splitList_append_sep (c : Char) (u v : List Char) (h : ∀ x ∈ u, x ≠ c) :
    splitList c (u ++ c :: v) = u :: splitList c v := by
  induction u with
  | nil => rw [List.nil_append, splitList_cons, if_pos rfl]
  | cons x xs ih =>
    have hx : x ≠ c := h x (by simp)
    have ihh := ih (fun y hy => h y (by simp [hy]))
    rw [List.cons_append, splitList_cons, if_neg hx, ihh]
    rfl

theorem isEmpty_false_of_ne_nil (l : List Char) (h : l ≠ []) :
    l.isEmpty = false := by
  cases l with
  | nil => exact absurd rfl h
  | cons x xs => rfl

theorem dropWhile_append_all (p : Char → Bool) (u v : List Char)
    (h : ∀ x ∈ u, p x = true) :
    List.dropWhile p (u ++ v) = List.dropWhile p v := by
  induction u with
  | nil => rfl
  | cons x xs ih =>
    have hx := h x (by simp)
    simp [List.dropWhile, hx, ih (fun y hy => h y (by simp [hy]))]

theorem dropWhile_all_false (p : Char → Bool) (l : List Char)
    (h : ∀ x ∈ l, p x = false) :
    List.dropWhile p l = l := by
  cases l with
  | nil => rfl
  | cons x xs => simp [List.dropWhile, h x (by simp)]

theorem qtrimmed_sandwich (w1 core w2 : List Char)
    (hw1 : ∀ x ∈ w1, x.isWhitespace = true)
    (hw2 : ∀ x ∈ w2, x.isWhitespace = true)
    (hc : ∀ x ∈ core, x.isWhitespace = false)
    (hne : core ≠ []) :
    qtrimmed (w1 ++ core ++ w2) = core := by
  unfold qtrimmed
  rw [List.append_assoc, dropWhile_append_all _ w1 _ hw1]
  have h1 : List.dropWhile Char.isWhitespace (core ++ w2) = core ++ w2 := by
    cases core with
    | nil => exact absurd rfl hne
    | cons x xs => simp [List.dropWhile, hc x (by simp)]
  rw [h1, List.reverse_append,
    dropWhile_append_all _ w2.reverse _
      (fun x hx => hw2 x (List.mem_reverse.mp hx)),
    dropWhile_all_false _ _ (fun x hx => hc x (List.mem_reverse.mp hx)),
    List.reverse_reverse]

/-- Claim C3 (counterexample): with a pure-space separator the tab split
already yields one non-empty part, so the space-split fallback never
runs; "3 5\n" is reported as unexpected raw output instead of the pair
(3, 5) the claim predicts. -/
theorem parseDivergence_space_cex :
    parseDivergence (str "3 5\n") = none ∧
    parseDivergence (str "3 5\n") ≠ some (str "3", str "5") := by
  decide

/-- Claim C3 (amended): single-token input falls back to raw text (the
`none` result, on which `onCheckUpdates` logs the raw output and does
not throw), and every input of the form
`<behind><spaces><tab><spaces><ahead><trailing-ws>` — i.e. a separator
that contains a tab, possibly surrounded by spaces — yields the two
tokens as (behind, ahead) in that order. -/
theorem parseDivergence_amended :
    parseDivergence (str "3\n") = none ∧
    ∀ b a s1 s2 w : List Char, b ≠ [] → a ≠ [] →
      (∀ x ∈ b, x.isWhitespace = false) →
      (∀ x ∈ a, x.isWhitespace = false) →
      (∀ x ∈ s1, x = ' ') → (∀ x ∈ s2, x = ' ') →
      (∀ x ∈ w, x.isWhitespace = true ∧ x ≠ '\t') →
      parseDivergence (b ++ s1 ++ '\t' :: (s2 ++ a ++ w)) = some (b, a) := by
  refine ⟨by decide, fun b a s1 s2 w hb ha hbw haw hs1 hs2 hw => ?_⟩
  have hbt : ∀ x ∈ b ++ s1, x ≠ '\t' := by
    intro x hx h
    rcases List.mem_append.mp hx with hm | hm
    · have := hbw x hm
      rw [h] at this
      exact absurd this (by decide)
    · have := hs1 x hm
      rw [h] at this
      exact absurd this (by decide)
  have htail : ∀ x ∈ s2 ++ a ++ w, x ≠ '\t' := by
    intro x hx h
    rcases List.mem_append.mp hx with hm | hm
    · rcases List.mem_append.mp hm with hm2 | hm2
      · have := hs2 x hm2
        rw [h] at this
        exact absurd this (by decide)
      · have := haw x hm2
        rw [h] at this
        exact absurd this (by decide)
    · exact absurd h (hw x hm).2
  have hseq : splitList '\t' (b ++ s1 ++ '\t' :: (s2 ++ a ++ w)) =
      (b ++ s1) :: [s2 ++ a ++ w] := by
    rw [splitList_append_sep _ _ _ hbt, splitList_no_sep _ _ htail]
  have hparts : qsplitSkip (b ++ s1 ++ '\t' :: (s2 ++ a ++ w)) '\t' =
      [b ++ s1, s2 ++ a ++ w] := by
    unfold qsplitSkip
    rw [hseq]
    have h1 : (b ++ s1).isEmpty = false :=
      isEmpty_false_of_ne_nil _ (fun h => hb (List.append_eq_nil.mp h).1)
    have h2 : (s2 ++ a ++ w).isEmpty = false :=
      isEmpty_false_of_ne_nil _ (fun h =>
        ha (List.append_eq_nil.mp (List.append_eq_nil.mp h).1).2)
    simp only [List.filter, h1, h2, Bool.not_false]
  have ht1 : qtrimmed (b ++ s1) = b := by
    have h := qtrimmed_sandwich [] b s1 (by simp)
      (fun x hx => by rw [hs1 x hx]; decide) hbw hb
    simpa using h
  have ht2 : qtrimmed (s2 ++ a ++ w) = a :=
    qtrimmed_sandwich s2 a w (fun x hx => by rw [hs2 x hx]; decide)
      (fun x hx => (hw x hx).1) haw ha
  unfold parseDivergence
  simp only [hparts]
  norm_num [List.getD]
  rw [List.append_assoc] at ht2
  exact ⟨ht1, ht2⟩

/-- Concrete instance of `parseDivergence_amended`: "3\t5\n" parses to
(behind 3, ahead 5). -/
theorem parseDivergence_amended_witness :
    parseDivergence (str "3\t5\n") = some (str "3", str "5") := by
  have h := parseDivergence_amended.2 (str "3") (str "5") [] [] (str "\n")
    (by decide) (by decide) (by decide) (by decide) (by decide) (by decide)
    (by decide)
  have e : (str "3") ++ ([] : List Char) ++
      '\t' :: (([] : List Char) ++ (str "5") ++ (str "\n")) = str "3\t5\n" := by
    decide
  rw [e] at h
  exact h

/-! ## Check updates branch resolution (`onCheckUpdates`, src/main.cpp lines 344-350)

After the fetch, the current branch is resolved with
`rev-parse --abbrev-ref HEAD`; on failure the hard-coded name "master"
is used, and in either case the divergence query
`rev-list --left-right --count origin/<branch>...HEAD` is issued. -/

def currentBranch (okb : Bool) (branchOut : List Char) : List Char :=
  if okb then qtrimmed branchOut else str "master"

/-- The range argument `QString("origin/%1...HEAD").arg(branch)` of the
divergence query, which `onCheckUpdates` always issues after branch
resolution (it has no branch-failure early return). -/
def revListRange (branch : List Char) : List Char :=
  str "origin/" ++ branch ++ str "...HEAD"

/-- Claim C9: whenever branch resolution fails, regardless of whatever
text the failed `rev-parse` produced, the divergence query that is still
issued targets `origin/master...HEAD`. -/
theorem checkUpdates_master_fallback (branchOut : List Char) :
    currentBranch false branchOut = str "master" ∧
    revListRange (currentBranch false branchOut) = str "origin/master...HEAD" := by
  constructor
  · rfl
  · show str "origin/" ++ str "master" ++ str "...HEAD" = str "origin/master...HEAD"
    decide

/-! ## Commit & push (`onPushIfChanged`, src/main.cpp lines 429-489)

The handler is modelled from the point where the repository directory is
known to exist, as the sequence of steps it performs.  The environment
fixes the porcelain status output, whether the commit-message dialog was
accepted, and the success of each git step.  A commit failure whose
stderr contains "nothing to commit" and any other commit failure both
return before the push, so the distinction does not affect the step
trace. -/

inductive PushStep where
  | status
  | add
  | commit
  | push
  | refresh
deriving DecidableEq

structure PushEnv where
  statusOut : List Char
  userAccepted : Bool
  addOk : Bool
  commitOk : Bool
  pushOk : Bool
deriving DecidableEq

/-- The ordered trace of steps `onPushIfChanged` performs: the porcelain
status check always runs; an empty (trimmed) status stops everything; a
cancelled commit-message dialog stops everything; then `add -A`,
`commit -m`, `push` run in order, each failure returning before the next
step; a successful push triggers Refresh local. -/
def pushIfChanged (e : PushEnv) : List PushStep :=
  PushStep.status ::
    (if (qtrimmed e.statusOut).isEmpty then []
     else if !e.userAccepted then []
     else PushStep.add ::
       (if !e.addOk then []
        else PushStep.commit ::
          (if !e.commitOk then []
           else PushStep.push ::
             (if !e.pushOk then [] else [PushStep.refresh]))))

/-- Claim C4: empty porcelain status stops after the status check with
no further git command; otherwise (with the message dialog accepted, as
the claim presupposes a commit message) add, commit, push run in that
order, and a failure of any step prevents every later step. -/
theorem pushIfChanged_sequencing (e : PushEnv) :
    ((qtrimmed e.statusOut).isEmpty = true →
      pushIfChanged e = [PushStep.status]) ∧
    ((qtrimmed e.statusOut).isEmpty = false → e.userAccepted = true →
      ((e.addOk = false →
          pushIfChanged e = [PushStep.status, PushStep.add]) ∧
       (e.addOk = true → e.commitOk = false →
          pushIfChanged e = [PushStep.status, PushStep.add, PushStep.commit]) ∧
       (e.addOk = true → e.commitOk = true → e.pushOk = false →
          pushIfChanged e =
            [PushStep.status, PushStep.add, PushStep.commit, PushStep.push]) ∧
       (e.addOk = true → e.commitOk = true → e.pushOk = true →
          pushIfChanged e =
            [PushStep.status, PushStep.add, PushStep.commit, PushStep.push,
              PushStep.refresh]))) := by
  unfold pushIfChanged
  constructor
  · intro h
    simp [h]
  · intro h hu
    refine ⟨fun ha => ?_, fun ha hc => ?_, fun ha hc hp => ?_, fun ha hc hp => ?_⟩ <;>
      simp [h, hu, ha]
    · simp [hc]
    · simp [hc, hp]
    · simp [hc, hp]

/-- Concrete instances of `pushIfChanged_sequencing`: a clean tree runs
only the status check; with changes and a failing commit, push never
runs. -/
theorem pushIfChanged_sequencing_witness :
    pushIfChanged ⟨str "", true, true, true, true⟩ = [PushStep.status] ∧
    pushIfChanged ⟨str " M a.txt\n", true, true, false, true⟩ =
      [PushStep.status, PushStep.add, PushStep.commit] := by
  constructor
  · exact (pushIfChanged_sequencing ⟨str "", true, true, true, true⟩).1 (by decide)
  · exact ((pushIfChanged_sequencing
      ⟨str " M a.txt\n", true, true, false, true⟩).2 (by decide) rfl).2.1 rfl rfl

/-- Claim C10: with local changes present, cancelling the commit-message
dialog stops the handler right after the status check: neither add nor
commit nor push appears in the trace, so no repository-mutating git
command is run. -/
theorem pushIfChanged_cancel (e : PushEnv)
    (h : (qtrimmed e.statusOut).isEmpty = false)
    (hu : e.userAccepted = false) :
    pushIfChanged e = [PushStep.status] ∧
    PushStep.add ∉ pushIfChanged e ∧
    PushStep.commit ∉ pushIfChanged e ∧
    PushStep.push ∉ pushIfChanged e := by
  have ht : pushIfChanged e = [PushStep.status] := by
    unfold pushIfChanged
    simp [h, hu]
  refine ⟨ht, ?_, ?_, ?_⟩ <;> simp [ht]

/-- Concrete instance of `pushIfChanged_cancel`: one modified file, the
dialog cancelled, only the status check runs. -/
theorem pushIfChanged_cancel_witness :
    pushIfChanged ⟨str " M a.txt\n", false, true, true, true⟩ =
      [PushStep.status] :=
  (pushIfChanged_cancel ⟨str " M a.txt\n", false, true, true, true⟩
    (by decide) rfl).1

/-! ## Repository entries and Clone selected (`onCloneSelected`, src/main.cpp lines 246-278)

A repository-list item carries its display text (the repo name) and the
ssh url stored in its `Qt::UserRole` data (empty when no url was
stored).  `QDir(localBaseDir).filePath(name)` for a relative name is
modelled as `base ++ "/" ++ name`. -/

structure RepoEntry where
  name : List Char
  ssh : List Char
deriving DecidableEq

def joinPath (base name : List Char) : List Char :=
  base ++ '/' :: name

/-- One log-visible event per selected repository: skipped for a missing
url, skipped for an existing target directory, or a clone run with its
success flag. -/
inductive CloneEvent where
  | skippedNoUrl (name : List Char)
  | skippedExists (target : List Char)
  | cloneRun (url : List Char) (target : List Char) (ok : Bool)
deriving DecidableEq

/-- The `onCloneSelected` loop over the selected items: empty ssh url →
skip with a log entry; existing target directory → skip with a log
entry; otherwise run `git clone <url> <target>` (whose success is given
by the environment `cloneOk`), log the outcome, and continue with the
remaining items in every case. -/
def cloneSelected (base : List Char) (dirExists : List Char → Bool)
    (cloneOk : List Char → List Char → Bool) : List RepoEntry → List CloneEvent
  | [] => []
  | it :: rest =>
    if it.ssh.isEmpty then
      CloneEvent.skippedNoUrl it.name :: cloneSelected base dirExists cloneOk rest
    else if dirExists (joinPath base it.name) then
      CloneEvent.skippedExists (joinPath base it.name) ::
        cloneSelected base dirExists cloneOk rest
    else
      CloneEvent.cloneRun it.ssh (joinPath base it.name)
        (cloneOk it.ssh (joinPath base it.name)) ::
        cloneSelected base dirExists cloneOk rest

/-- Projection selecting the clone invocations from the event trace. -/
def cloneRunOf : CloneEvent → Option (List Char × List Char)
  | CloneEvent.cloneRun u t _ => some (u, t)
  | _ => none

/-- Forgets the success flag of a clone run, leaving which command was
run for which repository. -/
def eraseOk : CloneEvent → CloneEvent
  | CloneEvent.cloneRun u t _ => CloneEvent.cloneRun u t true
  | ev => ev

theorem cloneSelected_length (base : List Char) (dirExists : List Char → Bool)
    (cloneOk : List Char → List Char → Bool) (items : List RepoEntry) :
    (cloneSelected base dirExists cloneOk items).length = items.length := by
  induction items with
  | nil => rfl
  | cons it rest ih =>
    unfold cloneSelected
    split_ifs <;> simp [ih]

theorem cloneSelected_clone_runs (base : List Char) (dirExists : List Char → Bool)
    (cloneOk : List Char → List Char → Bool) (items : List RepoEntry) :
    (cloneSelected base dirExists cloneOk items).filterMap cloneRunOf =
      (items.filter
        (fun it => !it.ssh.isEmpty && !dirExists (joinPath base it.name))).map
        (fun it => (it.ssh, joinPath base it.name)) := by
  induction items with
  | nil => rfl
  | cons it rest ih =>
    unfold cloneSelected
    by_cases h1 : it.ssh.isEmpty
    · simp [h1, List.filterMap_cons, cloneRunOf, ih]
    · by_cases h2 : dirExists (joinPath base it.name)
      · simp [h1, h2, List.filterMap_cons, cloneRunOf, ih]
      · simp [h1, h2, List.filterMap_cons, cloneRunOf, ih]

theorem cloneSelected_shape_indep (base : List Char) (dirExists : List Char → Bool)
    (cloneOk1 cloneOk2 : List Char → List Char → Bool) (items : List RepoEntry) :
    (cloneSelected base dirExists cloneOk1 items).map eraseOk =
      (cloneSelected base dirExists cloneOk2 items).map eraseOk := by
  induction items with
  | nil => rfl
  | cons it rest ih =>
    unfold cloneSelected
    split_ifs <;> simp [eraseOk, ih]

theorem cloneSelected_mem_noUrl (base : List Char) (dirExists : List Char → Bool)
    (cloneOk : List Char → List Char → Bool) (items : List RepoEntry) :
    ∀ it ∈ items, it.ssh.isEmpty = true →
      CloneEvent.skippedNoUrl it.name ∈ cloneSelected base dirExists cloneOk items := by
  induction items with
  | nil => intro it h; cases h
  | cons hd rest ih =>
    intro it hmem hempty
    rcases List.mem_cons.mp hmem with h | h
    · subst h
      unfold cloneSelected
      simp [hempty]
    · unfold cloneSelected
      split_ifs <;> simp [ih it h hempty]

theorem cloneSelected_mem_exists (base : List Char) (dirExists : List Char → Bool)
    (cloneOk : List Char → List Char → Bool) (items : List RepoEntry) :
    ∀ it ∈ items, it.ssh.isEmpty = false →
      dirExists (joinPath base it.name) = true →
      CloneEvent.skippedExists (joinPath base it.name) ∈
        cloneSelected base dirExists cloneOk items := by
  induction items with
  | nil => intro it h; cases h
  | cons hd rest ih =>
    intro it hmem hurl hdir
    rcases List.mem_cons.mp hmem with h | h
    · subst h
      unfold cloneSelected
      simp [hurl, hdir]
    · unfold cloneSelected
      split_ifs <;> simp [ih it h hurl hdir]

/-- Claim C7: the clone loop produces one event per selected repository
(no failure aborts the batch), the clone commands actually run are
exactly those for repositories with a url and no pre-existing target
directory (in input order), the set of commands run does not depend on
which clones fail, and repositories with an empty url or an existing
target are skipped with a log event. -/
theorem cloneSelected_spec (base : List Char) (dirExists : List Char → Bool)
    (cloneOk1 cloneOk2 : List Char → List Char → Bool) (items : List RepoEntry) :
    (cloneSelected base dirExists cloneOk1 items).length = items.length ∧
    (cloneSelected base dirExists cloneOk1 items).filterMap cloneRunOf =
      (items.filter
        (fun it => !it.ssh.isEmpty && !dirExists (joinPath base it.name))).map
        (fun it => (it.ssh, joinPath base it.name)) ∧
    (cloneSelected base dirExists cloneOk1 items).map eraseOk =
      (cloneSelected base dirExists cloneOk2 items).map eraseOk ∧
    (∀ it ∈ items, it.ssh.isEmpty = true →
      CloneEvent.skippedNoUrl it.name ∈
        cloneSelected base dirExists cloneOk1 items) ∧
    (∀ it ∈ items, it.ssh.isEmpty = false →
      dirExists (joinPath base it.name) = true →
      CloneEvent.skippedExists (joinPath base it.name) ∈
        cloneSelected base dirExists cloneOk1 items) :=
  ⟨cloneSelected_length base dirExists cloneOk1 items,
   cloneSelected_clone_runs base dirExists cloneOk1 items,
   cloneSelected_shape_indep base dirExists cloneOk1 cloneOk2 items,
   cloneSelected_mem_noUrl base dirExists cloneOk1 items,
   cloneSelected_mem_exists base dirExists cloneOk1 items⟩

/-- Concrete instance of `cloneSelected_spec`: three selected repos (one
without url, one already present, one cloneable) with an all-failing
clone environment: all three are processed, the url-less and existing
ones are skipped with log events, only the third is cloned, and the
commands run equal those of an all-succeeding environment. -/
theorem cloneSelected_spec_witness :
    (cloneSelected (str "/b")
        (fun t => t == joinPath (str "/b") (str "r2"))
        (fun _ _ => false)
        [⟨str "r1", []⟩, ⟨str "r2", str "u2"⟩, ⟨str "r3", str "u3"⟩]).length = 3 ∧
    CloneEvent.skippedNoUrl (str "r1") ∈
      cloneSelected (str "/b")
        (fun t => t == joinPath (str "/b") (str "r2"))
        (fun _ _ => false)
        [⟨str "r1", []⟩, ⟨str "r2", str "u2"⟩, ⟨str "r3", str "u3"⟩] ∧
    CloneEvent.skippedExists (joinPath (str "/b") (str "r2")) ∈
      cloneSelected (str "/b")
        (fun t => t == joinPath (str "/b") (str "r2"))
        (fun _ _ => false)
        [⟨str "r1", []⟩, ⟨str "r2", str "u2"⟩, ⟨str "r3", str "u3"⟩] ∧
    (cloneSelected (str "/b")
        (fun t => t == joinPath (str "/b") (str "r2"))
        (fun _ _ => false)
        [⟨str "r1", []⟩, ⟨str "r2", str "u2"⟩, ⟨str "r3", str "u3"⟩]).filterMap
        cloneRunOf = [(str "u3", joinPath (str "/b") (str "r3"))] ∧
    (cloneSelected (str "/b")
        (fun t => t == joinPath (str "/b") (str "r2"))
        (fun _ _ => false)
        [⟨str "r1", []⟩, ⟨str "r2", str "u2"⟩, ⟨str "r3", str "u3"⟩]).map eraseOk =
      (cloneSelected (str "/b")
        (fun t => t == joinPath (str "/b") (str "r2"))
        (fun _ _ => true)
        [⟨str "r1", []⟩, ⟨str "r2", str "u2"⟩, ⟨str "r3", str "u3"⟩]).map eraseOk := by
  have h := cloneSelected_spec (str "/b")
    (fun t => t == joinPath (str "/b") (str "r2"))
    (fun _ _ => false) (fun _ _ => true)
    [⟨str "r1", []⟩, ⟨str "r2", str "u2"⟩, ⟨str "r3", str "u3"⟩]
  refine ⟨h.1.trans (by decide), ?_, ?_, h.2.1.trans (by decide), h.2.2.1⟩
  · exact h.2.2.2.1 ⟨str "r1", []⟩ (by decide) (by decide)
  · exact h.2.2.2.2 ⟨str "r2", str "u2"⟩ (by decide) (by decide) (by decide)

/-! ## CLI Repository Source (`onSearchRepos`, src/main.cpp lines 207-234)

The `gh repo list <user> --limit 200 --json name,sshUrl` output is fed
to `QJsonDocument::fromJson`.  The parse result is modelled as
`Option JVal` (`none` = parse error); `QJsonValue::toString` returns the
empty string for non-string values and `QJsonObject::operator[]`
returns a null value for a missing key. -/

inductive JVal where
  | jnull
  | jbool (b : Bool)
  | jnum (n : Int)
  | jstr (s : List Char)
  | jarr (elems : List JVal)
  | jobj (fields : List (List Char × JVal))

def jLookup : List (List Char × JVal) → List Char → JVal
  | [], _ => JVal.jnull
  | (k, v) :: rest, key => if k = key then v else jLookup rest key

def jToString : JVal → List Char
  | JVal.jstr s => s
  | _ => []

/-- The RepositoryEntry `onSearchRepos` builds for one array element: a
list item showing the `name` field whose `Qt::UserRole` data is the
`sshUrl` field. -/
def repoEntryOfJson (v : JVal) : RepoEntry :=
  match v with
  | JVal.jobj o =>
      ⟨jToString (jLookup o (str "name")), jToString (jLookup o (str "sshUrl"))⟩
  | _ => ⟨[], []⟩

/-- The array loop of `onSearchRepos`: non-object elements are skipped
(`continue`), each object contributes one entry in order. -/
def collectRepoEntries : List JVal → List RepoEntry
  | [] => []
  | JVal.jobj o :: rest =>
      ⟨jToString (jLookup o (str "name")), jToString (jLookup o (str "sshUrl"))⟩ ::
        collectRepoEntries rest
  | _ :: rest => collectRepoEntries rest

inductive SearchLogEvent where
  | parseFallback
  | notArray
  | found (n : Nat)
deriving DecidableEq

/-- `onSearchRepos` after a successful `gh` run: a JSON parse error
falls back to one url-less entry per non-empty output line (trimmed); a
parsed non-array payload clears the list and logs "Unexpected gh json
(not array)"; a parsed array yields the collected entries and logs the
found count. -/
def searchRepos (parsed : Option JVal) (out : List Char) :
    List RepoEntry × List SearchLogEvent :=
  match parsed with
  | none =>
      ((qsplitSkip out '\n').map (fun l => ⟨qtrimmed l, []⟩),
        [SearchLogEvent.parseFallback])
  | some (JVal.jarr arr) =>
      (collectRepoEntries arr, [SearchLogEvent.found arr.length])
  | some _ => ([], [SearchLogEvent.notArray])

theorem collectRepoEntries_all_obj (arr : List JVal)
    (h : ∀ v ∈ arr, ∃ o, v = JVal.jobj o) :
    collectRepoEntries arr = arr.map repoEntryOfJson := by
  induction arr with
  | nil => rfl
  | cons v rest ih =>
    obtain ⟨o, rfl⟩ := h v (by simp)
    simp [collectRepoEntries, repoEntryOfJson,
      ih (fun y hy => h y (by simp [hy]))]

/-- Claim C6: for a parsed JSON array whose elements are objects (the
well-formed `gh --json name,sshUrl` shape), the source yields one entry
per element in input order with the `name` and `sshUrl` fields
extracted; a parsed non-array payload yields an empty list and the
"not array" log entry; a parse failure falls back to one display entry
per non-empty output line, trimmed, with no clone url. -/
theorem searchRepos_spec :
    (∀ arr out, (∀ v ∈ arr, ∃ o, v = JVal.jobj o) →
      (searchRepos (some (JVal.jarr arr)) out).1 = arr.map repoEntryOfJson ∧
      ((searchRepos (some (JVal.jarr arr)) out).1).length = arr.length) ∧
    (∀ j out, (∀ arr, j ≠ JVal.jarr arr) →
      searchRepos (some j) out = ([], [SearchLogEvent.notArray])) ∧
    (∀ out, ((searchRepos none out).1).map RepoEntry.name =
        (qsplitSkip out '\n').map qtrimmed ∧
      (∀ e ∈ (searchRepos none out).1, e.ssh = []) ∧
      (searchRepos none out).2 = [SearchLogEvent.parseFallback]) := by
  refine ⟨fun arr out h => ?_, fun j out h => ?_, fun out => ?_⟩
  · have hc := collectRepoEntries_all_obj arr h
    constructor
    · simpa [searchRepos] using hc
    · simp [searchRepos, hc]
  · cases j with
    | jarr arr => exact absurd rfl (h arr)
    | jnull => rfl
    | jbool b => rfl
    | jnum n => rfl
    | jstr s => rfl
    | jobj o => rfl
  · refine ⟨?_, ?_, rfl⟩
    · simp [searchRepos, List.map_map, Function.comp]
    · intro e he
      simp [searchRepos, List.mem_map] at he
      obtain ⟨l, _, rfl⟩ := he
      rfl

/-- Concrete instances of `searchRepos_spec`: the two-object array gives
its two entries in order, and a JSON string payload gives an empty list
with the "not array" log entry. -/
theorem searchRepos_spec_witness :
    (searchRepos (some (JVal.jarr
      [JVal.jobj [(str "name", JVal.jstr (str "a")),
                  (str "sshUrl", JVal.jstr (str "u1"))],
       JVal.jobj [(str "name", JVal.jstr (str "b")),
                  (str "sshUrl", JVal.jstr (str "u2"))]])) []).1 =
      [⟨str "a", str "u1"⟩, ⟨str "b", str "u2"⟩] ∧
    searchRepos (some (JVal.jstr (str "oops"))) [] =
      ([], [SearchLogEvent.notArray]) := by
  constructor
  · have h := (searchRepos_spec.1
      [JVal.jobj [(str "name", JVal.jstr (str "a")),
                  (str "sshUrl", JVal.jstr (str "u1"))],
       JVal.jobj [(str "name", JVal.jstr (str "b")),
                  (str "sshUrl", JVal.jstr (str "u2"))]] []
      (by intro v hv
          rcases List.mem_cons.mp hv with h | h
          · exact ⟨_, h⟩
          · rcases List.mem_cons.mp h with h2 | h2
            · exact ⟨_, h2⟩
            · cases h2)).1
    rw [h]
    decide
  · exact searchRepos_spec.2.1 (JVal.jstr (str "oops")) []
      (fun arr h => by cases h)
